import Mathlib

set_option maxHeartbeats 2000000

/-!
Shallow embedding of `src/AnimalGame.py` (the AnimalGame board game).

Python strings used as board keys are modelled as Lean `String`; the board
dictionary is an association list (`dictGet` reads the first binding, and
`dictSet` replaces the first binding in place, as a Python `dict` does).
Python exceptions and the (potentially) unbounded `while` loop of
`_path_clear` are modelled by the result type `PR`: `ok` for a normal
return, `err` for a raised exception, `div` for loop fuel exhaustion.
-/

inductive Color where
  | TANGERINE
  | AMETHYST
deriving DecidableEq, Repr

inductive PieceKind where
  | chinchilla
  | wombat
  | emu
  | cuttlefish
deriving DecidableEq, Repr

structure Piece where
  color : Color
  kind : PieceKind
deriving DecidableEq, Repr

inductive GameState where
  | UNFINISHED
  | TANGERINE_WON
  | AMETHYST_WON
deriving DecidableEq, Repr

inductive PyErr where
  | valueError
  | indexError
deriving DecidableEq, Repr

inductive PR (α : Type) where
  | ok (a : α)
  | err (e : PyErr)
  | div
deriving DecidableEq, Repr

/-- The constant `COLUMNS = ['a', 'b', 'c', 'd', 'e', 'f', 'g']` from the source. -/
def COLUMNS : List Char := ['a', 'b', 'c', 'd', 'e', 'f', 'g']

/-- Python `list.index`: the index of the first occurrence, `ValueError` if absent. -/
def listIndexAux (c : Char) : List Char → Nat → PR Nat
  | [], _ => .err .valueError
  | x :: xs, i => if x = c then .ok i else listIndexAux c xs (i + 1)

/-- Embeds `COLUMNS.index(c)`. -/
def columnsIndex (c : Char) : PR Nat := listIndexAux c COLUMNS 0

/-- Embeds `COLUMNS[i]` with Python `int` indexing (negative indices wrap once;
out-of-range raises `IndexError`). -/
def columnsGet (i : Int) : PR Char :=
  if 0 ≤ i ∧ i < 7 then .ok (COLUMNS.getD i.toNat ' ')
  else if -7 ≤ i ∧ i < 0 then .ok (COLUMNS.getD (i + 7).toNat ' ')
  else .err .indexError

/-- Embeds `s[i]` on a Python string for a nonnegative literal index
(`IndexError` when out of range). -/
def strIndex (s : String) (i : Nat) : PR Char :=
  match s.data.get? i with
  | some c => .ok c
  | none => .err .indexError

/-- Python `int(c)` on a one-character string: a decimal digit parses to its
value, anything else raises `ValueError`. -/
def pyIntChar (c : Char) : PR Int :=
  if '0' ≤ c ∧ c ≤ '9' then .ok ((c.toNat - '0'.toNat : Nat) : Int)
  else .err .valueError

/-- The board: Python's `self._board` dictionary.  A key may be absent, or
present and bound to `None` (both mean an unoccupied square in the game). -/
abbrev Board := List (String × Option Piece)

/-- Dictionary read: `none` when the key is absent, `some v` for a binding. -/
def dictGet : Board → String → Option (Option Piece)
  | [], _ => none
  | (k, v) :: rest, key => if k = key then some v else dictGet rest key

/-- Python `board.get(key)` (default `None`): absent and `None` collapse. -/
def pyGet (b : Board) (k : String) : Option Piece :=
  (dictGet b k).getD none

/-- Python `board[key] = v`: replace the first binding in place, else append. -/
def dictSet : Board → String → Option Piece → Board
  | [], key, v => [(key, v)]
  | (k, w) :: rest, key, v =>
    if k = key then (k, v) :: rest else (k, w) :: dictSet rest key v

/-- The two delta lines shared by every `valid_move` body:
`dx = abs(COLUMNS.index(start[0]) - COLUMNS.index(end[0]))` and
`dy = abs(int(start[1]) - int(end[1]))`, with Python's evaluation order. -/
def deltas (start e : String) : PR (Nat × Nat) :=
  match strIndex start 0 with
  | .err er => .err er
  | .div => .div
  | .ok s0 =>
  match columnsIndex s0 with
  | .err er => .err er
  | .div => .div
  | .ok i1 =>
  match strIndex e 0 with
  | .err er => .err er
  | .div => .div
  | .ok e0 =>
  match columnsIndex e0 with
  | .err er => .err er
  | .div => .div
  | .ok i2 =>
  match strIndex start 1 with
  | .err er => .err er
  | .div => .div
  | .ok s1 =>
  match pyIntChar s1 with
  | .err er => .err er
  | .div => .div
  | .ok r1 =>
  match strIndex e 1 with
  | .err er => .err er
  | .div => .div
  | .ok e1 =>
  match pyIntChar e1 with
  | .err er => .err er
  | .div => .div
  | .ok r2 => .ok (((i1 : Int) - (i2 : Int)).natAbs, (r1 - r2).natAbs)

/-- Embeds `Chinchilla.valid_move`: the test `max(dx, dy) == 1`. -/
def Chinchilla.valid_move (start e : String) (_board : Board) : PR Bool :=
  match deltas start e with
  | .ok (dx, dy) => .ok (max dx dy == 1)
  | .err er => .err er
  | .div => .div

/-- Embeds `Wombat.valid_move`: the source recomputes `abs_dx = abs(dx)` (a no-op,
`dx` is already an absolute value) and tests the three clauses. -/
def Wombat.valid_move (start e : String) (_board : Board) : PR Bool :=
  match deltas start e with
  | .ok (dx, dy) =>
    let abs_dx := dx
    let abs_dy := dy
    .ok ((abs_dx == 4 && dy == 0) || (abs_dy == 4 && dx == 0) ||
         (abs_dx == 1 && abs_dy == 1))
  | .err er => .err er
  | .div => .div

/-- Embeds `Emu.valid_move`: the source's chain of `if` tests. -/
def Emu.valid_move (start e : String) (_board : Board) : PR Bool :=
  match deltas start e with
  | .ok (dx, dy) =>
    if dx = 0 ∧ 1 ≤ dy ∧ dy ≤ 3 then .ok true
    else if dy = 0 ∧ 1 ≤ dx ∧ dx ≤ 3 then .ok true
    else if dx = 1 ∧ dy = 1 then .ok true
    else .ok false
  | .err er => .err er
  | .div => .div

/-- Embeds `Cuttlefish.valid_move`. -/
def Cuttlefish.valid_move (start e : String) (_board : Board) : PR Bool :=
  match deltas start e with
  | .ok (dx, dy) =>
    .ok ((dx == 2 && dy == 2) || (dx == 1 && dy == 0) || (dx == 0 && dy == 1))
  | .err er => .err er
  | .div => .div

/-- Dynamic dispatch of `piece.valid_move(start, end, board)`. -/
def Piece.valid_move (p : Piece) (start e : String) (board : Board) : PR Bool :=
  match p.kind with
  | .chinchilla => Chinchilla.valid_move start e board
  | .wombat => Wombat.valid_move start e board
  | .emu => Emu.valid_move start e board
  | .cuttlefish => Cuttlefish.valid_move start e board

/-- Embeds `AnimalGame._create_piece` (falls through to `None` for unknown names). -/
def create_piece (name : String) (color : Color) : Option Piece :=
  if name = "chinchilla" then some ⟨color, .chinchilla⟩
  else if name = "wombat" then some ⟨color, .wombat⟩
  else if name = "emu" then some ⟨color, .emu⟩
  else if name = "cuttlefish" then some ⟨color, .cuttlefish⟩
  else none

/-- The list `row_order` from `_place_initial_pieces`. -/
def row_order : List String :=
  ["chinchilla", "wombat", "emu", "cuttlefish", "emu", "wombat", "chinchilla"]

/-- Embeds `AnimalGame._place_initial_pieces`: for each index, the TANGERINE piece on
row 1 then the AMETHYST piece on row 7. -/
def place_initial_pieces : Board :=
  row_order.enum.foldl
    (fun b iname =>
      let b1 := dictSet b (String.mk [COLUMNS.getD iname.1 ' ', '1'])
        (create_piece iname.2 .TANGERINE)
      dictSet b1 (String.mk [COLUMNS.getD iname.1 ' ', '7'])
        (create_piece iname.2 .AMETHYST))
    []

/-- The state owned by an `AnimalGame` instance. -/
structure Game where
  board : Board
  game_state : GameState
  turn : Color
deriving DecidableEq, Repr

/-- Embeds `AnimalGame.__init__`. -/
def AnimalGame.new : Game :=
  { board := place_initial_pieces, game_state := .UNFINISHED, turn := .TANGERINE }

/-- The step computation `0 if d == 0 else (1 if d > 0 else -1)`. -/
def stepOf (d : Int) : Int :=
  if d = 0 then 0 else if d > 0 then 1 else -1

/-- The `while` loop of `_path_clear`, with explicit fuel (`div` models a
loop that has not finished within the fuel). -/
def pathClearLoop (board : Board) (column_end row_end step_column step_row : Int) :
    Int → Int → Nat → PR Bool
  | _, _, 0 => .div
  | column, row, fuel + 1 =>
    if column = column_end ∧ row = row_end then .ok true
    else
      match columnsGet column with
      | .err er => .err er
      | .div => .div
      | .ok ch =>
        let position := String.mk [ch] ++ toString row
        if (pyGet board position).isSome then .ok false
        else pathClearLoop board column_end row_end step_column step_row
          (column + step_column) (row + step_row) fuel

/-- Embeds `AnimalGame._path_clear` (fuel 49 is far beyond any loop the game can
reach; the parsing follows the source's statement order). -/
def path_clear (board : Board) (start e : String) : PR Bool :=
  match strIndex start 0 with
  | .err er => .err er
  | .div => .div
  | .ok s0 =>
  match columnsIndex s0 with
  | .err er => .err er
  | .div => .div
  | .ok column_start =>
  match strIndex start 1 with
  | .err er => .err er
  | .div => .div
  | .ok s1 =>
  match pyIntChar s1 with
  | .err er => .err er
  | .div => .div
  | .ok row_start =>
  match strIndex e 0 with
  | .err er => .err er
  | .div => .div
  | .ok e0 =>
  match columnsIndex e0 with
  | .err er => .err er
  | .div => .div
  | .ok column_end =>
  match strIndex e 1 with
  | .err er => .err er
  | .div => .div
  | .ok e1 =>
  match pyIntChar e1 with
  | .err er => .err er
  | .div => .div
  | .ok row_end =>
    let dx : Int := (column_end : Int) - (column_start : Int)
    let dy : Int := row_end - row_start
    let step_column := stepOf dx
    let step_row := stepOf dy
    pathClearLoop board (column_end : Int) row_end step_column step_row
      ((column_start : Int) + step_column) (row_start + step_row) 49

/-- Lines 220-222 of `make_move`: the win check, computed from the pre-move
occupant of the destination square (`isinstance(target, Cuttlefish)` and the
status assignment). -/
def win_check (g : Game) (e : String) : GameState :=
  match pyGet g.board e with
  | some t =>
    if t.kind = .cuttlefish then
      (if t.color = .AMETHYST then GameState.TANGERINE_WON
       else GameState.AMETHYST_WON)
    else g.game_state
  | none => g.game_state

/-- Lines 221-227 of `make_move`: status update, the two board assignments
(`board[end] = piece` then `board[start] = None`) and the turn switch. -/
def apply_move (g : Game) (start e : String) (piece : Piece) : Game :=
  { board := dictSet (dictSet g.board e (some piece)) start none,
    game_state := win_check g e,
    turn := if g.turn = .TANGERINE then Color.AMETHYST else Color.TANGERINE }

/-- Lines 211-212 of `make_move`: `target and target.color() == self._turn`
(Python truthiness: `None` is falsy). -/
def friendly_block (g : Game) (e : String) : Bool :=
  match pyGet g.board e with
  | some t => t.color == g.turn
  | none => false

/-- Dispatch on the result of the path-clearance step (lines 216-227): an
exception propagates, a blocked path rejects, a clear path applies the move. -/
def slide_outcome (g : Game) (start e : String) (piece : Piece) :
    PR Bool → PR (Bool × Game)
  | .err er => .err er
  | .div => .div
  | .ok false => .ok (false, g)
  | .ok true => .ok (true, apply_move g start e piece)

/-- Lines 208-227 of `make_move`, after `piece.valid_move` has returned
`valid`: shape rejection, friendly-fire rejection, path clearance for the
two sliding classes, then the application of the move.  `target` is read
from the unchanged board wherever the source reads its local `target`. -/
def after_valid (g : Game) (start e : String) (piece : Piece) (valid : Bool) :
    PR (Bool × Game) :=
  if valid = false then .ok (false, g)
  else if friendly_block g e = true then .ok (false, g)
  else
    slide_outcome g start e piece
      (if piece.kind = .emu ∨ piece.kind = .chinchilla then
        path_clear g.board start e
      else .ok true)

/-- Lines 203-227 of `make_move`, once `piece = board[start]` is known:
turn-ownership check, then shape validation (whose exceptions propagate). -/
def with_piece (g : Game) (start e : String) (piece : Piece) : PR (Bool × Game) :=
  if piece.color ≠ g.turn then .ok (false, g)
  else
    match piece.valid_move start e g.board with
    | .err er => .err er
    | .div => .div
    | .ok valid => after_valid g start e piece valid

/-- Embeds `AnimalGame.make_move`, state passed explicitly.  A `False` return hands
back the unchanged game, mirroring the early `return False` statements. -/
def make_move (g : Game) (start e : String) : PR (Bool × Game) :=
  if g.game_state ≠ .UNFINISHED then .ok (false, g)
  else
    match pyGet g.board start with
    | none => .ok (false, g)
    | some piece => with_piece g start e piece

/-- Run a sequence of `make_move` calls, threading the game state (a raised
exception leaves the Python object unchanged). -/
def runMoves : Game → List (String × String) → Game
  | g, [] => g
  | g, (s, e) :: rest =>
    match make_move g s e with
    | .ok (_, g') => runMoves g' rest
    | _ => runMoves g rest

/-! ### Statement-side helper definitions -/

/-- Whether a `make_move` outcome is a successful (`True`) move. -/
def isTrueMove (r : PR (Bool × Game)) : Bool :=
  match r with
  | .ok (b, _) => b
  | _ => false

/-- The other side. -/
def otherColor : Color → Color
  | .TANGERINE => .AMETHYST
  | .AMETHYST => .TANGERINE

/-- The terminal state in which the given side has won. -/
def wonBy : Color → GameState
  | .TANGERINE => .TANGERINE_WON
  | .AMETHYST => .AMETHYST_WON

/-- Index of a column letter in `COLUMNS` (for statements; meaningful when
the letter is a member). -/
def colIdx (c : Char) : Nat :=
  match columnsIndex c with
  | .ok i => i
  | _ => 0

/-- Numeric value of a row digit character. -/
def rowVal (c : Char) : Int :=
  ((c.toNat - '0'.toNat : Nat) : Int)

/-- The key naming the square at column index `ci` and row `r`, as the
path-clearing loop builds it. -/
def squareAt (ci r : Int) : String :=
  String.mk [COLUMNS.getD ci.toNat ' '] ++ toString r

/-- The ten decimal digit characters. -/
def DIGITS10 : List Char := ['0', '1', '2', '3', '4', '5', '6', '7', '8', '9']

/-- The seven row digits of the 7x7 board. -/
def ROWS7 : List Char := ['1', '2', '3', '4', '5', '6', '7']

/-- A well-formed square key: a column letter `a`-`g` plus a row digit 1-7. -/
def WFsq (s : String) : Prop :=
  s.data.length = 2 ∧ s.data.getD 0 ' ' ∈ COLUMNS ∧ s.data.getD 1 ' ' ∈ ROWS7

instance : DecidablePred WFsq := fun s => by
  unfold WFsq
  infer_instance

/-- Contribution of one board binding to the cuttlefish count of side `c`. -/
def contrib (c : Color) : Option Piece → Nat
  | some p => if p.kind = .cuttlefish ∧ p.color = c then 1 else 0
  | none => 0

/-- Number of cuttlefish of side `c` among the board's bindings. -/
def cuttleCount (b : Board) (c : Color) : Nat :=
  match b with
  | [] => 0
  | (_, v) :: rest => contrib c v + cuttleCount rest c

/-- Games reachable from a fresh `AnimalGame` by `make_move` calls with
well-formed coordinates. -/
inductive Reachable : Game → Prop where
  | init : Reachable AnimalGame.new
  | step {g : Game} {s e : String} {b : Bool} {g' : Game} :
      Reachable g → WFsq s → WFsq e → make_move g s e = .ok (b, g') →
      Reachable g'

/-! ### Dictionary lemmas -/

theorem dictGet_dictSet_self (b : Board) (k : String) (v : Option Piece) :
    dictGet (dictSet b k v) k = some v := by
  induction b with
  | nil => simp [dictSet, dictGet]
  | cons kv rest ih =>
    obtain ⟨k', w⟩ := kv
    by_cases h : k' = k <;> simp [dictSet, dictGet, h, ih]

theorem dictGet_dictSet_ne (b : Board) (k k' : String) (v : Option Piece)
    (h : k' ≠ k) : dictGet (dictSet b k v) k' = dictGet b k' := by
  have hne : k ≠ k' := Ne.symm h
  induction b with
  | nil => simp [dictSet, dictGet, hne]
  | cons kv rest ih =>
    obtain ⟨k0, w⟩ := kv
    by_cases h0 : k0 = k
    · subst h0
      simp [dictSet, dictGet, hne]
    · simp only [dictSet, if_neg h0, dictGet]
      by_cases h1 : k0 = k' <;> simp [h1, ih]

theorem pyGet_dictSet_self (b : Board) (k : String) (v : Option Piece) :
    pyGet (dictSet b k v) k = v := by
  simp [pyGet, dictGet_dictSet_self]

theorem pyGet_dictSet_ne (b : Board) (k k' : String) (v : Option Piece)
    (h : k' ≠ k) : pyGet (dictSet b k v) k' = pyGet b k' := by
  simp [pyGet, dictGet_dictSet_ne _ _ _ _ h]

theorem mem_keys_dictSet (b : Board) (k x : String) (v : Option Piece)
    (h : x ∈ (dictSet b k v).map Prod.fst) :
    x ∈ b.map Prod.fst ∨ x = k := by
  induction b with
  | nil => simp [dictSet] at h; simp [h]
  | cons kv rest ih =>
    obtain ⟨k0, w⟩ := kv
    by_cases h0 : k0 = k
    · subst h0
      simp [dictSet] at h
      rcases h with h | h
      · simp [h]
      · exact Or.inl (by simp [h])
    · simp only [dictSet, if_neg h0, List.map_cons, List.mem_cons] at h
      rcases h with h | h
      · exact Or.inl (by simp [h])
      · rcases ih h with h' | h'
        · exact Or.inl (by simp [h'])
        · exact Or.inr h'

theorem nodup_keys_dictSet (b : Board) (k : String) (v : Option Piece)
    (h : (b.map Prod.fst).Nodup) : ((dictSet b k v).map Prod.fst).Nodup := by
  induction b with
  | nil => simp [dictSet]
  | cons kv rest ih =>
    obtain ⟨k0, w⟩ := kv
    simp only [List.map_cons, List.nodup_cons] at h
    by_cases h0 : k0 = k
    · subst h0
      simpa [dictSet, List.nodup_cons] using h
    · simp only [dictSet, if_neg h0, List.map_cons, List.nodup_cons]
      refine ⟨fun hmem => ?_, ih h.2⟩
      rcases mem_keys_dictSet rest k k0 v hmem with h' | h'
      · exact h.1 h'
      · exact h0 h'

theorem cuttleCount_dictSet (b : Board) (k : String) (v : Option Piece)
    (c : Color) :
    cuttleCount (dictSet b k v) c + contrib c (pyGet b k) =
      cuttleCount b c + contrib c v := by
  induction b with
  | nil => simp [dictSet, cuttleCount, pyGet, dictGet, contrib]
  | cons kv rest ih =>
    obtain ⟨k0, w⟩ := kv
    by_cases h0 : k0 = k
    · subst h0
      simp [dictSet, cuttleCount, pyGet, dictGet]
      omega
    · simp only [dictSet, if_neg h0, cuttleCount, pyGet, dictGet, if_neg h0]
      simp only [pyGet] at ih
      omega

/-! ### Parsing lemmas -/

theorem strIndex_ne_div (s : String) (i : Nat) : strIndex s i ≠ .div := by
  unfold strIndex
  cases s.data.get? i <;> simp

theorem columnsIndex_ne_div (c : Char) : columnsIndex c ≠ .div := by
  simp only [columnsIndex, COLUMNS, listIndexAux]
  split_ifs <;> simp

theorem pyIntChar_ne_div (c : Char) : pyIntChar c ≠ .div := by
  unfold pyIntChar
  split_ifs <;> simp

theorem columnsIndex_ok_le {c : Char} {i : Nat} (h : columnsIndex c = .ok i) :
    i ≤ 6 := by
  simp only [columnsIndex, COLUMNS, listIndexAux] at h
  split_ifs at h <;>
    first
    | (injection h with h; omega)
    | exact PR.noConfusion h

theorem columnsIndex_of_mem {c : Char} (h : c ∈ COLUMNS) :
    columnsIndex c = .ok (colIdx c) := by
  fin_cases h <;> decide

theorem columnsIndex_err_of_not_mem {c : Char} (h : c ∉ COLUMNS) :
    columnsIndex c = .err .valueError := by
  have na : ¬('a' = c) := fun hh => h (hh ▸ (by decide : 'a' ∈ COLUMNS))
  have nb : ¬('b' = c) := fun hh => h (hh ▸ (by decide : 'b' ∈ COLUMNS))
  have nc : ¬('c' = c) := fun hh => h (hh ▸ (by decide : 'c' ∈ COLUMNS))
  have nd : ¬('d' = c) := fun hh => h (hh ▸ (by decide : 'd' ∈ COLUMNS))
  have ne' : ¬('e' = c) := fun hh => h (hh ▸ (by decide : 'e' ∈ COLUMNS))
  have nf : ¬('f' = c) := fun hh => h (hh ▸ (by decide : 'f' ∈ COLUMNS))
  have ng : ¬('g' = c) := fun hh => h (hh ▸ (by decide : 'g' ∈ COLUMNS))
  simp [columnsIndex, COLUMNS, listIndexAux, na, nb, nc, nd, ne', nf, ng]

theorem pyIntChar_of_mem {c : Char} (h : c ∈ DIGITS10) :
    pyIntChar c = .ok (rowVal c) := by
  fin_cases h <;> decide

theorem rows7_subset_digits {c : Char} (h : c ∈ ROWS7) : c ∈ DIGITS10 := by
  fin_cases h <;> decide

theorem strIndex_mk2 (a b : Char) (i : Nat) :
    strIndex (String.mk [a, b]) 0 = .ok a ∧ strIndex (String.mk [a, b]) 1 = .ok b := by
  constructor <;> rfl

/-! ### Characterizing `deltas` -/

theorem deltas_ok_elim {s e : String} {dx dy : Nat}
    (h : deltas s e = .ok (dx, dy)) :
    ∃ s0 i1 e0 i2 s1 r1 e1 r2,
      strIndex s 0 = .ok s0 ∧ columnsIndex s0 = .ok i1 ∧
      strIndex e 0 = .ok e0 ∧ columnsIndex e0 = .ok i2 ∧
      strIndex s 1 = .ok s1 ∧ pyIntChar s1 = .ok r1 ∧
      strIndex e 1 = .ok e1 ∧ pyIntChar e1 = .ok r2 ∧
      dx = ((i1 : Int) - (i2 : Int)).natAbs ∧ dy = (r1 - r2).natAbs := by
  unfold deltas at h
  split at h <;> try exact PR.noConfusion h
  rename_i s0 h0
  split at h <;> try exact PR.noConfusion h
  rename_i i1 h1
  split at h <;> try exact PR.noConfusion h
  rename_i e0 h2
  split at h <;> try exact PR.noConfusion h
  rename_i i2 h3
  split at h <;> try exact PR.noConfusion h
  rename_i s1 h4
  split at h <;> try exact PR.noConfusion h
  rename_i r1 h5
  split at h <;> try exact PR.noConfusion h
  rename_i e1 h6
  split at h <;> try exact PR.noConfusion h
  rename_i r2 h7
  simp only [PR.ok.injEq, Prod.mk.injEq] at h
  exact ⟨_, _, _, _, _, _, _, _, h0, h1, h2, h3, h4, h5, h6, h7, h.1.symm, h.2.symm⟩

theorem deltas_ne_div (s e : String) : deltas s e ≠ .div := by
  unfold deltas
  split
  · simp
  · rename_i h0; exact absurd h0 (strIndex_ne_div s 0)
  rename_i s0 h0
  split
  · simp
  · rename_i h1; exact absurd h1 (columnsIndex_ne_div s0)
  rename_i i1 h1
  split
  · simp
  · rename_i h2; exact absurd h2 (strIndex_ne_div e 0)
  rename_i e0 h2
  split
  · simp
  · rename_i h3; exact absurd h3 (columnsIndex_ne_div e0)
  rename_i i2 h3
  split
  · simp
  · rename_i h4; exact absurd h4 (strIndex_ne_div s 1)
  rename_i s1 h4
  split
  · simp
  · rename_i h5; exact absurd h5 (pyIntChar_ne_div s1)
  rename_i r1 h5
  split
  · simp
  · rename_i h6; exact absurd h6 (strIndex_ne_div e 1)
  rename_i e1 h6
  split
  · simp
  · rename_i h7; exact absurd h7 (pyIntChar_ne_div e1)
  simp

theorem deltas_self {s : String} {dx dy : Nat}
    (h : deltas s s = .ok (dx, dy)) : dx = 0 ∧ dy = 0 := by
  obtain ⟨s0, i1, e0, i2, s1, r1, e1, r2, h0, h1, h2, h3, h4, h5, h6, h7, hdx, hdy⟩ :=
    deltas_ok_elim h
  rw [h0] at h2
  injection h2 with h2
  subst h2
  rw [h1] at h3
  injection h3 with h3
  subst h3
  rw [h4] at h6
  injection h6 with h6
  subst h6
  rw [h5] at h7
  injection h7 with h7
  subst h7
  simp [hdx, hdy]

/-! ### Characterizing the shape predicates -/

/-- The movement shape each archetype accepts, as a predicate on the
absolute column and row deltas. -/
def shapeOf (k : PieceKind) (dx dy : Nat) : Prop :=
  match k with
  | .chinchilla => max dx dy = 1
  | .wombat => (dx = 4 ∧ dy = 0) ∨ (dy = 4 ∧ dx = 0) ∨ (dx = 1 ∧ dy = 1)
  | .emu => (dx = 0 ∧ 1 ≤ dy ∧ dy ≤ 3) ∨ (dy = 0 ∧ 1 ≤ dx ∧ dx ≤ 3) ∨ (dx = 1 ∧ dy = 1)
  | .cuttlefish => (dx = 2 ∧ dy = 2) ∨ (dx = 1 ∧ dy = 0) ∨ (dx = 0 ∧ dy = 1)

theorem valid_move_true_elim {p : Piece} {s e : String} {b : Board}
    (h : p.valid_move s e b = .ok true) :
    ∃ dx dy, deltas s e = .ok (dx, dy) ∧ shapeOf p.kind dx dy := by
  unfold Piece.valid_move at h
  split at h <;> rename_i hk
  case h_1 =>
    unfold Chinchilla.valid_move at h
    split at h <;> try exact PR.noConfusion h
    rename_i dx dy hd
    injection h with h
    refine ⟨dx, dy, hd, ?_⟩
    rw [hk]
    simpa [shapeOf] using h
  case h_2 =>
    unfold Wombat.valid_move at h
    split at h <;> try exact PR.noConfusion h
    rename_i dx dy hd
    injection h with h
    refine ⟨dx, dy, hd, ?_⟩
    rw [hk]
    simp only [Bool.or_eq_true, Bool.and_eq_true, beq_iff_eq] at h
    simp only [shapeOf]
    exact or_assoc.mp h
  case h_3 =>
    unfold Emu.valid_move at h
    split at h <;> try exact PR.noConfusion h
    rename_i dx dy hd
    refine ⟨dx, dy, hd, ?_⟩
    rw [hk]
    simp only [shapeOf]
    split_ifs at h with h1 h2 h3
    · exact Or.inl h1
    · exact Or.inr (Or.inl h2)
    · exact Or.inr (Or.inr h3)
    · injection h with h; exact absurd h (by simp)
  case h_4 =>
    unfold Cuttlefish.valid_move at h
    split at h <;> try exact PR.noConfusion h
    rename_i dx dy hd
    injection h with h
    refine ⟨dx, dy, hd, ?_⟩
    rw [hk]
    simp only [Bool.or_eq_true, Bool.and_eq_true, beq_iff_eq] at h
    simp only [shapeOf]
    exact or_assoc.mp h

theorem shapeOf_ne_zero {k : PieceKind} {dx dy : Nat} (h : shapeOf k dx dy) :
    ¬(dx = 0 ∧ dy = 0) := by
  rintro ⟨rfl, rfl⟩
  cases k <;> simp only [shapeOf] at h
  · simp at h
  · rcases h with h | h | h <;> omega
  · rcases h with h | h | h <;> omega
  · rcases h with h | h | h <;> omega

theorem valid_move_ne_div (p : Piece) (s e : String) (b : Board) :
    p.valid_move s e b ≠ .div := by
  unfold Piece.valid_move
  split
  case h_1 =>
    unfold Chinchilla.valid_move
    split
    · simp
    · simp
    · rename_i hd; exact absurd hd (deltas_ne_div s e)
  case h_2 =>
    unfold Wombat.valid_move
    split
    · simp
    · simp
    · rename_i hd; exact absurd hd (deltas_ne_div s e)
  case h_3 =>
    unfold Emu.valid_move
    split
    · split_ifs <;> simp
    · simp
    · rename_i hd; exact absurd hd (deltas_ne_div s e)
  case h_4 =>
    unfold Cuttlefish.valid_move
    split
    · simp
    · simp
    · rename_i hd; exact absurd hd (deltas_ne_div s e)

theorem valid_move_ok_of_deltas_ok {s e : String} {d : Nat × Nat}
    (p : Piece) (b : Board) (h : deltas s e = .ok d) :
    ∃ v, p.valid_move s e b = .ok v := by
  obtain ⟨dx, dy⟩ := d
  unfold Piece.valid_move
  split
  case h_1 =>
    unfold Chinchilla.valid_move
    rw [h]
    exact ⟨_, rfl⟩
  case h_2 =>
    unfold Wombat.valid_move
    rw [h]
    exact ⟨_, rfl⟩
  case h_3 =>
    unfold Emu.valid_move
    rw [h]
    show ∃ v, (if dx = 0 ∧ 1 ≤ dy ∧ dy ≤ 3 then PR.ok true
      else if dy = 0 ∧ 1 ≤ dx ∧ dx ≤ 3 then PR.ok true
      else if dx = 1 ∧ dy = 1 then PR.ok true else PR.ok false) = PR.ok v
    split_ifs <;> exact ⟨_, rfl⟩
  case h_4 =>
    unfold Cuttlefish.valid_move
    rw [h]
    exact ⟨_, rfl⟩

theorem valid_move_err_of_deltas_err {s e : String} {er : PyErr}
    (p : Piece) (b : Board) (h : deltas s e = .err er) :
    p.valid_move s e b = .err er := by
  unfold Piece.valid_move
  split <;>
    simp only [Chinchilla.valid_move, Wombat.valid_move, Emu.valid_move,
      Cuttlefish.valid_move] <;>
    rw [h]

/-! ### Loop lemmas for `_path_clear` -/

theorem columnsGet_of_bounds {i : Int} (h4 : 0 ≤ i) (h5 : i ≤ 6) :
    columnsGet i = .ok (COLUMNS.getD i.toNat ' ') := by
  unfold columnsGet
  rw [if_pos ⟨h4, by omega⟩]

theorem pathClearLoop_end (board : Board) (ce re σc σr col row : Int) (f : Nat)
    (hend : col = ce ∧ row = re) :
    pathClearLoop board ce re σc σr col row (f + 1) = .ok true := by
  simp only [pathClearLoop]
  rw [if_pos hend]

theorem pathClearLoop_succ (board : Board) (ce re σc σr col row : Int) (f : Nat)
    (ch : Char) (hne : ¬(col = ce ∧ row = re)) (hcg : columnsGet col = .ok ch) :
    pathClearLoop board ce re σc σr col row (f + 1) =
      (if (pyGet board (String.mk [ch] ++ toString row)).isSome then .ok false
       else pathClearLoop board ce re σc σr (col + σc) (row + σr) f) := by
  simp only [pathClearLoop]
  rw [if_neg hne, hcg]

theorem pathClearLoop_ok (board : Board) (re σr : Int) {ce σc : Int}
    (hσ : σc = -1 ∨ σc = 0 ∨ σc = 1) (hce0 : 0 ≤ ce) (hce6 : ce ≤ 6) :
    ∀ (K : Nat) (col row : Int) (fuel : Nat),
      col + K * σc = ce → row + K * σr = re → K < fuel →
      0 ≤ col → col ≤ 6 →
      ∃ bres, pathClearLoop board ce re σc σr col row fuel = .ok bres := by
  intro K
  induction K with
  | zero =>
    intro col row fuel h1 h2 h3 h4 h5
    obtain ⟨f, rfl⟩ : ∃ f, fuel = f + 1 := ⟨fuel - 1, by omega⟩
    have hc : col = ce := by simpa using h1
    have hr : row = re := by simpa using h2
    exact ⟨true, pathClearLoop_end board ce re σc σr col row f ⟨hc, hr⟩⟩
  | succ K ih =>
    intro col row fuel h1 h2 h3 h4 h5
    obtain ⟨f, rfl⟩ : ∃ f, fuel = f + 1 := ⟨fuel - 1, by omega⟩
    by_cases hend : col = ce ∧ row = re
    · exact ⟨true, pathClearLoop_end board ce re σc σr col row f hend⟩
    · have hcg : columnsGet col = .ok (COLUMNS.getD col.toNat ' ') :=
        columnsGet_of_bounds h4 h5
      rw [pathClearLoop_succ board ce re σc σr col row f _ hend hcg]
      by_cases hocc :
          (pyGet board (String.mk [COLUMNS.getD col.toNat ' '] ++ toString row)).isSome
      · exact ⟨false, by rw [if_pos hocc]⟩
      · rw [if_neg hocc]
        have h1' : (col + σc) + K * σc = ce := by
          rcases hσ with rfl | rfl | rfl <;> push_cast at h1 ⊢ <;> omega
        have h2' : (row + σr) + K * σr = re := by
          push_cast at h2 ⊢
          linarith [h2]
        have hb : 0 ≤ col + σc ∧ col + σc ≤ 6 := by
          rcases hσ with rfl | rfl | rfl <;> push_cast at h1' <;> omega
        exact ih (col + σc) (row + σr) f h1' h2' (by omega) hb.1 hb.2

theorem pathClearLoop_blocked (board : Board) (re : Int) {ce σc σr : Int}
    (hσc : σc = -1 ∨ σc = 0 ∨ σc = 1)
    (hσ : ¬(σc = 0 ∧ σr = 0))
    (hce0 : 0 ≤ ce) (hce6 : ce ≤ 6) :
    ∀ (K : Nat) (col row : Int) (fuel : Nat),
      col + K * σc = ce → row + K * σr = re → K < fuel →
      0 ≤ col → col ≤ 6 →
      (∃ j : Nat, j < K ∧
        (pyGet board (squareAt (col + j * σc) (row + j * σr))).isSome = true) →
      pathClearLoop board ce re σc σr col row fuel = .ok false := by
  intro K
  induction K with
  | zero =>
    intro col row fuel h1 h2 h3 h4 h5 hblk
    obtain ⟨j, hj, _⟩ := hblk
    omega
  | succ K ih =>
    intro col row fuel h1 h2 h3 h4 h5 hblk
    obtain ⟨f, rfl⟩ : ∃ f, fuel = f + 1 := ⟨fuel - 1, by omega⟩
    have hend : ¬(col = ce ∧ row = re) := by
      rintro ⟨rfl, rfl⟩
      push_cast at h1 h2
      have hc : ((K : Int) + 1) * σc = 0 := by linarith
      have hr : ((K : Int) + 1) * σr = 0 := by linarith
      have hK : ((K : Int) + 1) ≠ 0 := by positivity
      exact hσ ⟨(mul_eq_zero.mp hc).resolve_left hK,
        (mul_eq_zero.mp hr).resolve_left hK⟩
    have hcg : columnsGet col = .ok (COLUMNS.getD col.toNat ' ') :=
      columnsGet_of_bounds h4 h5
    rw [pathClearLoop_succ board ce re σc σr col row f _ hend hcg]
    by_cases hocc :
        (pyGet board (String.mk [COLUMNS.getD col.toNat ' '] ++ toString row)).isSome
    · rw [if_pos hocc]
    · rw [if_neg hocc]
      obtain ⟨j, hj, hjocc⟩ := hblk
      have hj0 : j ≠ 0 := by
        rintro rfl
        apply hocc
        simpa [squareAt] using hjocc
      obtain ⟨j', rfl⟩ : ∃ j', j = j' + 1 := ⟨j - 1, by omega⟩
      have h1' : (col + σc) + K * σc = ce := by
        push_cast at h1 ⊢
        linarith [h1]
      have h2' : (row + σr) + K * σr = re := by
        push_cast at h2 ⊢
        linarith [h2]
      have hb : 0 ≤ col + σc ∧ col + σc ≤ 6 := by
        rcases hσc with rfl | rfl | rfl <;> push_cast at h1' <;> omega
      refine ih (col + σc) (row + σr) f h1' h2' (by omega) hb.1 hb.2 ⟨j', by omega, ?_⟩
      have harg1 : (col + σc) + (j' : Int) * σc = col + ((j' : Nat) + 1 : Nat) * σc := by
        push_cast
        ring
      have harg2 : (row + σr) + (j' : Int) * σr = row + ((j' : Nat) + 1 : Nat) * σr := by
        push_cast
        ring
      rw [harg1, harg2]
      exact hjocc

/-! ### Assembling parses -/

theorem WFsq_elim {s : String} (hs : WFsq s) :
    ∃ c r, strIndex s 0 = .ok c ∧ strIndex s 1 = .ok r ∧ c ∈ COLUMNS ∧ r ∈ ROWS7 := by
  obtain ⟨hlen, hc, hr⟩ := hs
  rcases hsd : s.data with _ | ⟨a, _ | ⟨b, _ | t⟩⟩ <;> rw [hsd] at hlen <;>
    simp at hlen
  rw [hsd] at hc hr
  simp at hc hr
  refine ⟨a, b, ?_, ?_, hc, hr⟩ <;> simp [strIndex, hsd]

theorem deltas_eq_of_components {s e : String} {s0 e0 s1 e1 : Char}
    {i1 i2 : Nat} {r1 r2 : Int}
    (h0 : strIndex s 0 = .ok s0) (h1 : columnsIndex s0 = .ok i1)
    (h2 : strIndex e 0 = .ok e0) (h3 : columnsIndex e0 = .ok i2)
    (h4 : strIndex s 1 = .ok s1) (h5 : pyIntChar s1 = .ok r1)
    (h6 : strIndex e 1 = .ok e1) (h7 : pyIntChar e1 = .ok r2) :
    deltas s e = .ok (((i1 : Int) - (i2 : Int)).natAbs, (r1 - r2).natAbs) := by
  unfold deltas
  split
  · rename_i heq; rw [h0] at heq; exact PR.noConfusion heq
  · rename_i heq; rw [h0] at heq; exact PR.noConfusion heq
  rename_i c0 heq0
  rw [h0] at heq0
  injection heq0 with heq0
  subst heq0
  split
  · rename_i heq; rw [h1] at heq; exact PR.noConfusion heq
  · rename_i heq; rw [h1] at heq; exact PR.noConfusion heq
  rename_i j1 heq1
  rw [h1] at heq1
  injection heq1 with heq1
  subst heq1
  split
  · rename_i heq; rw [h2] at heq; exact PR.noConfusion heq
  · rename_i heq; rw [h2] at heq; exact PR.noConfusion heq
  rename_i c2 heq2
  rw [h2] at heq2
  injection heq2 with heq2
  subst heq2
  split
  · rename_i heq; rw [h3] at heq; exact PR.noConfusion heq
  · rename_i heq; rw [h3] at heq; exact PR.noConfusion heq
  rename_i j2 heq3
  rw [h3] at heq3
  injection heq3 with heq3
  subst heq3
  split
  · rename_i heq; rw [h4] at heq; exact PR.noConfusion heq
  · rename_i heq; rw [h4] at heq; exact PR.noConfusion heq
  rename_i c4 heq4
  rw [h4] at heq4
  injection heq4 with heq4
  subst heq4
  split
  · rename_i heq; rw [h5] at heq; exact PR.noConfusion heq
  · rename_i heq; rw [h5] at heq; exact PR.noConfusion heq
  rename_i v5 heq5
  rw [h5] at heq5
  injection heq5 with heq5
  subst heq5
  split
  · rename_i heq; rw [h6] at heq; exact PR.noConfusion heq
  · rename_i heq; rw [h6] at heq; exact PR.noConfusion heq
  rename_i c6 heq6
  rw [h6] at heq6
  injection heq6 with heq6
  subst heq6
  split
  · rename_i heq; rw [h7] at heq; exact PR.noConfusion heq
  · rename_i heq; rw [h7] at heq; exact PR.noConfusion heq
  rename_i v7 heq7
  rw [h7] at heq7
  injection heq7 with heq7
  subst heq7
  rfl

theorem path_clear_eq {board : Board} {s e : String} {s0 e0 s1 e1 : Char}
    {i1 i2 : Nat} {r1 r2 : Int}
    (h0 : strIndex s 0 = .ok s0) (h1 : columnsIndex s0 = .ok i1)
    (h4 : strIndex s 1 = .ok s1) (h5 : pyIntChar s1 = .ok r1)
    (h2 : strIndex e 0 = .ok e0) (h3 : columnsIndex e0 = .ok i2)
    (h6 : strIndex e 1 = .ok e1) (h7 : pyIntChar e1 = .ok r2) :
    path_clear board s e =
      pathClearLoop board (i2 : Int) r2 (stepOf ((i2 : Int) - (i1 : Int)))
        (stepOf (r2 - r1)) ((i1 : Int) + stepOf ((i2 : Int) - (i1 : Int)))
        (r1 + stepOf (r2 - r1)) 49 := by
  unfold path_clear
  split
  · rename_i heq; rw [h0] at heq; exact PR.noConfusion heq
  · rename_i heq; rw [h0] at heq; exact PR.noConfusion heq
  rename_i c0 heq0
  rw [h0] at heq0
  injection heq0 with heq0
  subst heq0
  split
  · rename_i heq; rw [h1] at heq; exact PR.noConfusion heq
  · rename_i heq; rw [h1] at heq; exact PR.noConfusion heq
  rename_i j1 heq1
  rw [h1] at heq1
  injection heq1 with heq1
  subst heq1
  split
  · rename_i heq; rw [h4] at heq; exact PR.noConfusion heq
  · rename_i heq; rw [h4] at heq; exact PR.noConfusion heq
  rename_i c4 heq4
  rw [h4] at heq4
  injection heq4 with heq4
  subst heq4
  split
  · rename_i heq; rw [h5] at heq; exact PR.noConfusion heq
  · rename_i heq; rw [h5] at heq; exact PR.noConfusion heq
  rename_i v5 heq5
  rw [h5] at heq5
  injection heq5 with heq5
  subst heq5
  split
  · rename_i heq; rw [h2] at heq; exact PR.noConfusion heq
  · rename_i heq; rw [h2] at heq; exact PR.noConfusion heq
  rename_i c2 heq2
  rw [h2] at heq2
  injection heq2 with heq2
  subst heq2
  split
  · rename_i heq; rw [h3] at heq; exact PR.noConfusion heq
  · rename_i heq; rw [h3] at heq; exact PR.noConfusion heq
  rename_i j2 heq3
  rw [h3] at heq3
  injection heq3 with heq3
  subst heq3
  split
  · rename_i heq; rw [h6] at heq; exact PR.noConfusion heq
  · rename_i heq; rw [h6] at heq; exact PR.noConfusion heq
  rename_i c6 heq6
  rw [h6] at heq6
  injection heq6 with heq6
  subst heq6
  split
  · rename_i heq; rw [h7] at heq; exact PR.noConfusion heq
  · rename_i heq; rw [h7] at heq; exact PR.noConfusion heq
  rename_i v7 heq7
  rw [h7] at heq7
  injection heq7 with heq7
  subst heq7
  rfl

/-! ### The step direction and reachability of the end square -/

theorem stepOf_cases (d : Int) : stepOf d = -1 ∨ stepOf d = 0 ∨ stepOf d = 1 := by
  unfold stepOf
  split_ifs <;> simp

theorem shape_reach {i1 i2 : Nat} {r1 r2 : Int}
    (hi1 : i1 ≤ 6) (hi2 : i2 ≤ 6)
    (hstraight : ((i1 : Int) - (i2 : Int)).natAbs = 0 ∨ (r1 - r2).natAbs = 0 ∨
      (((i1 : Int) - (i2 : Int)).natAbs = 1 ∧ (r1 - r2).natAbs = 1))
    (hdy : (r1 - r2).natAbs ≤ 6) :
    ∃ K : Nat, K < 49 ∧
      ((i1 : Int) + stepOf ((i2 : Int) - (i1 : Int))) +
        K * stepOf ((i2 : Int) - (i1 : Int)) = (i2 : Int) ∧
      (r1 + stepOf (r2 - r1)) + K * stepOf (r2 - r1) = r2 ∧
      0 ≤ (i1 : Int) + stepOf ((i2 : Int) - (i1 : Int)) ∧
      (i1 : Int) + stepOf ((i2 : Int) - (i1 : Int)) ≤ 6 ∧
      max (((i1 : Int) - (i2 : Int)).natAbs) ((r1 - r2).natAbs) ≤ K + 1 := by
  rcases hstraight with hst | hst | hst
  · refine ⟨(r1 - r2).natAbs - 1, by omega, ?_, ?_, ?_, ?_, by omega⟩ <;>
      unfold stepOf <;> split_ifs <;> push_cast <;> omega
  · refine ⟨((i1 : Int) - (i2 : Int)).natAbs - 1, by omega, ?_, ?_, ?_, ?_, by omega⟩ <;>
      unfold stepOf <;> split_ifs <;> push_cast <;> omega
  · refine ⟨0, by omega, ?_, ?_, ?_, ?_, by omega⟩ <;>
      unfold stepOf <;> split_ifs <;> push_cast <;> omega

/-! ### Branch equations for `make_move` -/

theorem make_move_terminal {g : Game} (s e : String)
    (h : g.game_state ≠ .UNFINISHED) : make_move g s e = .ok (false, g) := by
  unfold make_move
  rw [if_pos h]

theorem make_move_nostart {g : Game} {s : String} (e : String)
    (h1 : g.game_state = .UNFINISHED) (h2 : pyGet g.board s = none) :
    make_move g s e = .ok (false, g) := by
  unfold make_move
  rw [if_neg (by simp [h1] : ¬(g.game_state ≠ GameState.UNFINISHED)), h2]

theorem make_move_eq_with_piece {g : Game} {s : String} {p : Piece} (e : String)
    (h1 : g.game_state = .UNFINISHED) (h2 : pyGet g.board s = some p) :
    make_move g s e = with_piece g s e p := by
  unfold make_move
  rw [if_neg (by simp [h1] : ¬(g.game_state ≠ GameState.UNFINISHED)), h2]

theorem with_piece_wrongcolor {g : Game} {p : Piece} (s e : String)
    (h3 : p.color ≠ g.turn) : with_piece g s e p = .ok (false, g) := by
  unfold with_piece
  rw [if_pos h3]

theorem with_piece_vm_err {g : Game} {s e : String} {p : Piece} {er : PyErr}
    (h3 : p.color = g.turn) (h4 : p.valid_move s e g.board = .err er) :
    with_piece g s e p = .err er := by
  unfold with_piece
  rw [if_neg (by simp [h3] : ¬(p.color ≠ g.turn)), h4]

theorem with_piece_eq_after_valid {g : Game} {s e : String} {p : Piece} {v : Bool}
    (h3 : p.color = g.turn) (h4 : p.valid_move s e g.board = .ok v) :
    with_piece g s e p = after_valid g s e p v := by
  unfold with_piece
  rw [if_neg (by simp [h3] : ¬(p.color ≠ g.turn)), h4]

theorem after_valid_false (g : Game) (s e : String) (p : Piece) :
    after_valid g s e p false = .ok (false, g) := by
  unfold after_valid
  rw [if_pos rfl]

theorem after_valid_friendly {g : Game} {e : String} (s : String) (p : Piece)
    (h5 : friendly_block g e = true) :
    after_valid g s e p true = .ok (false, g) := by
  unfold after_valid
  rw [if_neg (by simp : ¬(true = false)), if_pos h5]

theorem after_valid_slide {g : Game} {s e : String} {p : Piece} {pc : PR Bool}
    (h5 : ¬(friendly_block g e = true))
    (h6 : p.kind = .emu ∨ p.kind = .chinchilla)
    (h7 : path_clear g.board s e = pc) :
    after_valid g s e p true = slide_outcome g s e p pc := by
  subst h7
  unfold after_valid
  rw [if_neg (by simp : ¬(true = false)), if_neg h5, if_pos h6]

theorem after_valid_jump {g : Game} {p : Piece} (s e : String)
    (h5 : ¬(friendly_block g e = true))
    (h6 : ¬(p.kind = .emu ∨ p.kind = .chinchilla)) :
    after_valid g s e p true = .ok (true, apply_move g s e p) := by
  unfold after_valid
  rw [if_neg (by simp : ¬(true = false)), if_neg h5, if_neg h6]
  rfl

/-! ### Outcome analysis for `make_move` -/

theorem make_move_false_inv {g : Game} {s e : String} {g' : Game}
    (h : make_move g s e = .ok (false, g')) : g' = g := by
  by_cases h1 : g.game_state = .UNFINISHED
  case neg =>
    rw [make_move_terminal s e h1] at h
    simp only [PR.ok.injEq, Prod.mk.injEq] at h
    exact h.2.symm
  rcases h2 : pyGet g.board s with _ | p
  · rw [make_move_nostart e h1 h2] at h
    simp only [PR.ok.injEq, Prod.mk.injEq] at h
    exact h.2.symm
  rw [make_move_eq_with_piece e h1 h2] at h
  by_cases h3 : p.color = g.turn
  case neg =>
    rw [with_piece_wrongcolor s e h3] at h
    simp only [PR.ok.injEq, Prod.mk.injEq] at h
    exact h.2.symm
  rcases h4 : p.valid_move s e g.board with v | er | -
  rotate_left
  · rw [with_piece_vm_err h3 h4] at h
    exact PR.noConfusion h
  · exact absurd h4 (valid_move_ne_div p s e g.board)
  rw [with_piece_eq_after_valid h3 h4] at h
  cases v
  · rw [after_valid_false] at h
    simp only [PR.ok.injEq, Prod.mk.injEq] at h
    exact h.2.symm
  by_cases h5 : friendly_block g e = true
  case pos =>
    rw [after_valid_friendly s p h5] at h
    simp only [PR.ok.injEq, Prod.mk.injEq] at h
    exact h.2.symm
  by_cases h6 : p.kind = .emu ∨ p.kind = .chinchilla
  case neg =>
    rw [after_valid_jump s e h5 h6] at h
    simp at h
  rcases h7 : path_clear g.board s e with bres | er | -
  rotate_left
  · rw [after_valid_slide h5 h6 h7] at h
    simp [slide_outcome] at h
  · rw [after_valid_slide h5 h6 h7] at h
    simp [slide_outcome] at h
  rw [after_valid_slide h5 h6 h7] at h
  cases bres
  · simp only [slide_outcome, PR.ok.injEq, Prod.mk.injEq] at h
    exact h.2.symm
  · simp [slide_outcome] at h

theorem make_move_true_inv {g : Game} {s e : String} {g' : Game}
    (h : make_move g s e = .ok (true, g')) :
    g.game_state = .UNFINISHED ∧
    ∃ p, pyGet g.board s = some p ∧ p.color = g.turn ∧
      (∃ dx dy, deltas s e = .ok (dx, dy) ∧ shapeOf p.kind dx dy) ∧
      ¬(friendly_block g e = true) ∧
      g' = apply_move g s e p := by
  by_cases h1 : g.game_state = .UNFINISHED
  case neg =>
    rw [make_move_terminal s e h1] at h
    simp at h
  rcases h2 : pyGet g.board s with _ | p
  · rw [make_move_nostart e h1 h2] at h
    simp at h
  rw [make_move_eq_with_piece e h1 h2] at h
  by_cases h3 : p.color = g.turn
  case neg =>
    rw [with_piece_wrongcolor s e h3] at h
    simp at h
  rcases h4 : p.valid_move s e g.board with v | er | -
  rotate_left
  · rw [with_piece_vm_err h3 h4] at h
    exact PR.noConfusion h
  · exact absurd h4 (valid_move_ne_div p s e g.board)
  rw [with_piece_eq_after_valid h3 h4] at h
  cases v
  · rw [after_valid_false] at h
    simp at h
  by_cases h5 : friendly_block g e = true
  case pos =>
    rw [after_valid_friendly s p h5] at h
    simp at h
  have hshape := valid_move_true_elim h4
  by_cases h6 : p.kind = .emu ∨ p.kind = .chinchilla
  case neg =>
    rw [after_valid_jump s e h5 h6] at h
    simp only [PR.ok.injEq, Prod.mk.injEq, true_and] at h
    exact ⟨h1, p, rfl, h3, hshape, h5, h.symm⟩
  rcases h7 : path_clear g.board s e with bres | er | -
  rotate_left
  · rw [after_valid_slide h5 h6 h7] at h
    simp [slide_outcome] at h
  · rw [after_valid_slide h5 h6 h7] at h
    simp [slide_outcome] at h
  rw [after_valid_slide h5 h6 h7] at h
  cases bres
  · simp [slide_outcome] at h
  · simp only [slide_outcome, PR.ok.injEq, Prod.mk.injEq, true_and] at h
    exact ⟨h1, p, rfl, h3, hshape, h5, h.symm⟩

/-! ### The path check of a sliding move always returns a boolean -/

theorem sliding_shape_straight {k : PieceKind} {dx dy : Nat}
    (h6 : k = .emu ∨ k = .chinchilla) (hshape : shapeOf k dx dy) :
    (dx = 0 ∨ dy = 0 ∨ (dx = 1 ∧ dy = 1)) ∧ dy ≤ 6 := by
  rcases h6 with hk | hk <;> rw [hk] at hshape
  · simp only [shapeOf] at hshape
    rcases hshape with ⟨h, h'⟩ | ⟨h, h'⟩ | ⟨h, h'⟩
    · exact ⟨Or.inl h, by omega⟩
    · exact ⟨Or.inr (Or.inl h), by omega⟩
    · exact ⟨Or.inr (Or.inr ⟨h, h'⟩), by omega⟩
  · simp only [shapeOf] at hshape
    constructor <;> omega

theorem sliding_path_ok {g : Game} {s e : String} {p : Piece}
    (h6 : p.kind = .emu ∨ p.kind = .chinchilla)
    (h4 : p.valid_move s e g.board = .ok true) :
    ∃ bres, path_clear g.board s e = .ok bres := by
  obtain ⟨dx, dy, hdel, hshape⟩ := valid_move_true_elim h4
  obtain ⟨s0, i1, e0, i2, s1, r1, e1, r2, c0, c1, c2, c3, c4, c5, c6, c7, hdx, hdy⟩ :=
    deltas_ok_elim hdel
  subst hdx
  subst hdy
  have hpc := @path_clear_eq g.board s e s0 e0 s1 e1 i1 i2 r1 r2 c0 c1 c4 c5 c2 c3 c6 c7
  have hi1 : i1 ≤ 6 := columnsIndex_ok_le c1
  have hi2 : i2 ≤ 6 := columnsIndex_ok_le c3
  have hmain := sliding_shape_straight h6 hshape
  obtain ⟨K, hK, hc, hr, hb0, hb6, hKmax⟩ := shape_reach hi1 hi2 hmain.1 hmain.2
  obtain ⟨bres, hloop⟩ :=
    pathClearLoop_ok g.board r2 (stepOf (r2 - r1))
      (stepOf_cases ((i2 : Int) - (i1 : Int)))
      (by positivity : (0 : Int) ≤ (i2 : Int))
      (by exact_mod_cast hi2) K _ _ 49 hc hr hK hb0 hb6
  exact ⟨bres, hpc.trans hloop⟩

/-! ### `make_move` totality -/

theorem make_move_ne_div (g : Game) (s e : String) : make_move g s e ≠ .div := by
  intro h
  by_cases h1 : g.game_state = .UNFINISHED
  case neg =>
    rw [make_move_terminal s e h1] at h
    exact PR.noConfusion h
  rcases h2 : pyGet g.board s with _ | p
  · rw [make_move_nostart e h1 h2] at h
    exact PR.noConfusion h
  rw [make_move_eq_with_piece e h1 h2] at h
  by_cases h3 : p.color = g.turn
  case neg =>
    rw [with_piece_wrongcolor s e h3] at h
    exact PR.noConfusion h
  rcases h4 : p.valid_move s e g.board with v | er | -
  rotate_left
  · rw [with_piece_vm_err h3 h4] at h
    exact PR.noConfusion h
  · exact absurd h4 (valid_move_ne_div p s e g.board)
  rw [with_piece_eq_after_valid h3 h4] at h
  cases v
  · rw [after_valid_false] at h
    exact PR.noConfusion h
  by_cases h5 : friendly_block g e = true
  case pos =>
    rw [after_valid_friendly s p h5] at h
    exact PR.noConfusion h
  by_cases h6 : p.kind = .emu ∨ p.kind = .chinchilla
  case neg =>
    rw [after_valid_jump s e h5 h6] at h
    exact PR.noConfusion h
  obtain ⟨bres, hloop⟩ := sliding_path_ok h6 h4
  rw [after_valid_slide h5 h6 hloop] at h
  cases bres <;> simp [slide_outcome] at h

theorem make_move_ok_of_wf (g : Game) {s e : String} (hs : WFsq s) (he : WFsq e) :
    ∃ b g', make_move g s e = .ok (b, g') := by
  obtain ⟨cs, rs, hs0, hs1, hcs, hrs⟩ := WFsq_elim hs
  obtain ⟨cf, rf, he0, he1, hcf, hrf⟩ := WFsq_elim he
  have hci1 := columnsIndex_of_mem hcs
  have hci2 := columnsIndex_of_mem hcf
  have hri1 := pyIntChar_of_mem (rows7_subset_digits hrs)
  have hri2 := pyIntChar_of_mem (rows7_subset_digits hrf)
  have hdel := deltas_eq_of_components hs0 hci1 he0 hci2 hs1 hri1 he1 hri2
  by_cases h1 : g.game_state = .UNFINISHED
  case neg => exact ⟨false, g, make_move_terminal s e h1⟩
  rcases h2 : pyGet g.board s with _ | p
  · exact ⟨false, g, make_move_nostart e h1 h2⟩
  rw [make_move_eq_with_piece e h1 h2]
  by_cases h3 : p.color = g.turn
  case neg => exact ⟨false, g, with_piece_wrongcolor s e h3⟩
  obtain ⟨v, hv⟩ := valid_move_ok_of_deltas_ok p g.board hdel
  rw [with_piece_eq_after_valid h3 hv]
  cases v
  · exact ⟨false, g, after_valid_false g s e p⟩
  by_cases h5 : friendly_block g e = true
  case pos => exact ⟨false, g, after_valid_friendly s p h5⟩
  by_cases h6 : p.kind = .emu ∨ p.kind = .chinchilla
  case neg => exact ⟨true, apply_move g s e p, after_valid_jump s e h5 h6⟩
  obtain ⟨bres, hloop⟩ := sliding_path_ok h6 hv
  cases bres
  · exact ⟨false, g, by rw [after_valid_slide h5 h6 hloop]; rfl⟩
  · exact ⟨true, apply_move g s e p, by rw [after_valid_slide h5 h6 hloop]; rfl⟩

/-! ### Small consequences used by the claims -/

theorem move_ne_of_shape {s e : String} {dx dy : Nat}
    (hdel : deltas s e = .ok (dx, dy)) (hne : ¬(dx = 0 ∧ dy = 0)) : s ≠ e := by
  intro heq
  subst heq
  exact hne (deltas_self hdel)

theorem pyGet_eq_none_of_keys {b : Board} {s : String}
    (h : ∀ kv ∈ b, kv.1 ≠ s) : pyGet b s = none := by
  induction b with
  | nil => rfl
  | cons kv rest ih =>
    obtain ⟨k, v⟩ := kv
    have hk : k ≠ s := h (k, v) (by simp)
    simp only [pyGet, dictGet, if_neg hk]
    exact ih fun kv hkv => h kv (by simp [hkv])

theorem friendly_block_false_elim {g : Game} {e : String} {q : Piece}
    (h5 : ¬(friendly_block g e = true)) (hq : pyGet g.board e = some q) :
    q.color ≠ g.turn := by
  intro hc
  apply h5
  unfold friendly_block
  rw [hq]
  simp [hc]

theorem win_check_capture {g : Game} {e : String} {q : Piece}
    (hq : pyGet g.board e = some q) (hk : q.kind = .cuttlefish)
    (hc : q.color ≠ g.turn) : win_check g e = wonBy g.turn := by
  unfold win_check
  rw [hq]
  show (if q.kind = PieceKind.cuttlefish then
      (if q.color = Color.AMETHYST then GameState.TANGERINE_WON
       else GameState.AMETHYST_WON)
    else g.game_state) = wonBy g.turn
  rw [if_pos hk]
  cases hqc : q.color <;> cases hgt : g.turn <;> simp_all [wonBy]

theorem win_check_no_cuttlefish {g : Game} {e : String}
    (h : ∀ q, pyGet g.board e = some q → q.kind ≠ .cuttlefish) :
    win_check g e = g.game_state := by
  unfold win_check
  cases hq : pyGet g.board e
  · rfl
  · rename_i q
    show (if q.kind = PieceKind.cuttlefish then
        (if q.color = Color.AMETHYST then GameState.TANGERINE_WON
         else GameState.AMETHYST_WON)
      else g.game_state) = g.game_state
    rw [if_neg (h q hq)]

theorem wonBy_ne_unfinished (c : Color) : wonBy c ≠ .UNFINISHED := by
  cases c <;> simp [wonBy]

/-- The key list of the freshly initialized board, in insertion order. -/
def SQUARES14 : List String :=
  ["a1", "a7", "b1", "b7", "c1", "c7", "d1", "d7", "e1", "e7", "f1", "f7", "g1", "g7"]

/-! ### Claim theorems -/

/-- Claim C5: a newly constructed `AnimalGame` has status `UNFINISHED`, turn
`TANGERINE`, the row Chinchilla, Wombat, Emu, Cuttlefish, Emu, Wombat,
Chinchilla on columns `a`-`g` of row 1 for TANGERINE and the same order on
row 7 for AMETHYST, and every other square unoccupied. -/
theorem c5_initial_position :
    AnimalGame.new.game_state = .UNFINISHED ∧
    AnimalGame.new.turn = .TANGERINE ∧
    (pyGet AnimalGame.new.board "a1" = some ⟨.TANGERINE, .chinchilla⟩ ∧
     pyGet AnimalGame.new.board "b1" = some ⟨.TANGERINE, .wombat⟩ ∧
     pyGet AnimalGame.new.board "c1" = some ⟨.TANGERINE, .emu⟩ ∧
     pyGet AnimalGame.new.board "d1" = some ⟨.TANGERINE, .cuttlefish⟩ ∧
     pyGet AnimalGame.new.board "e1" = some ⟨.TANGERINE, .emu⟩ ∧
     pyGet AnimalGame.new.board "f1" = some ⟨.TANGERINE, .wombat⟩ ∧
     pyGet AnimalGame.new.board "g1" = some ⟨.TANGERINE, .chinchilla⟩ ∧
     pyGet AnimalGame.new.board "a7" = some ⟨.AMETHYST, .chinchilla⟩ ∧
     pyGet AnimalGame.new.board "b7" = some ⟨.AMETHYST, .wombat⟩ ∧
     pyGet AnimalGame.new.board "c7" = some ⟨.AMETHYST, .emu⟩ ∧
     pyGet AnimalGame.new.board "d7" = some ⟨.AMETHYST, .cuttlefish⟩ ∧
     pyGet AnimalGame.new.board "e7" = some ⟨.AMETHYST, .emu⟩ ∧
     pyGet AnimalGame.new.board "f7" = some ⟨.AMETHYST, .wombat⟩ ∧
     pyGet AnimalGame.new.board "g7" = some ⟨.AMETHYST, .chinchilla⟩) ∧
    ∀ sq : String, sq ∉ SQUARES14 → pyGet AnimalGame.new.board sq = none := by
  refine ⟨rfl, rfl, by decide, ?_⟩
  intro sq hsq
  refine pyGet_eq_none_of_keys ?_
  intro kv hkv
  have hmem : kv.1 ∈ AnimalGame.new.board.map Prod.fst := List.mem_map_of_mem _ hkv
  have hkeys : AnimalGame.new.board.map Prod.fst = SQUARES14 := by decide
  rw [hkeys] at hmem
  intro heq
  rw [heq] at hmem
  exact hsq hmem

/-- Witness for C5: instantiating the final clause at the unoccupied square
`c3`. -/
theorem c5_initial_position_witness : pyGet AnimalGame.new.board "c3" = none :=
  c5_initial_position.2.2.2 "c3" (by decide)

/-- The game value produced by the off-board move of claim C9. -/
def g9 : Game :=
  match make_move AnimalGame.new "a1" "a0" with
  | .ok (_, g') => g'
  | _ => AnimalGame.new

/-- Claim C9: `make_move` does not enforce the row range on the destination:
on a fresh game, `make_move("a1", "a0")` returns `True`, the board then maps
the off-board key `a0` to the TANGERINE Chinchilla, square `a1` becomes
empty, and the turn switches to AMETHYST. -/
theorem c9_row_range_unchecked :
    make_move AnimalGame.new "a1" "a0" = .ok (true, g9) ∧
    pyGet g9.board "a0" = some ⟨.TANGERINE, .chinchilla⟩ ∧
    pyGet g9.board "a1" = none ∧
    g9.turn = .AMETHYST := by
  refine ⟨by decide, by decide, by decide, by decide⟩

/-- The absolute column delta between two column letters. -/
def colDelta (c d : Char) : Nat := ((colIdx c : Int) - (colIdx d : Int)).natAbs

/-- The absolute row delta between two row digits. -/
def rowDelta (c d : Char) : Nat := (rowVal c - rowVal d).natAbs

/-- Claim C7: the Emu shape predicate returns `True` exactly when
(dCol = 0 and 1 ≤ dRow ≤ 3) or (dRow = 0 and 1 ≤ dCol ≤ 3) or
(dCol = 1 and dRow = 1); and its result never depends on the board. -/
theorem c7_emu_shape_iff :
    (∀ (board : Board), ∀ cs ∈ COLUMNS, ∀ rs ∈ DIGITS10, ∀ ce ∈ COLUMNS,
      ∀ re ∈ DIGITS10,
      (Emu.valid_move (String.mk [cs, rs]) (String.mk [ce, re]) board = .ok true ↔
        (colDelta cs ce = 0 ∧ 1 ≤ rowDelta rs re ∧ rowDelta rs re ≤ 3) ∨
        (rowDelta rs re = 0 ∧ 1 ≤ colDelta cs ce ∧ colDelta cs ce ≤ 3) ∨
        (colDelta cs ce = 1 ∧ rowDelta rs re = 1))) ∧
    (∀ s e b1 b2, Emu.valid_move s e b1 = Emu.valid_move s e b2) := by
  constructor
  · intro board cs hcs rs hrs ce hce re hre
    have hdel := deltas_eq_of_components
      (strIndex_mk2 cs rs 0).1 (columnsIndex_of_mem hcs)
      (strIndex_mk2 ce re 0).1 (columnsIndex_of_mem hce)
      (strIndex_mk2 cs rs 0).2 (pyIntChar_of_mem hrs)
      (strIndex_mk2 ce re 0).2 (pyIntChar_of_mem hre)
    unfold Emu.valid_move
    rw [hdel]
    show (if colDelta cs ce = 0 ∧ 1 ≤ rowDelta rs re ∧ rowDelta rs re ≤ 3 then
        PR.ok true
      else if rowDelta rs re = 0 ∧ 1 ≤ colDelta cs ce ∧ colDelta cs ce ≤ 3 then
        PR.ok true
      else if colDelta cs ce = 1 ∧ rowDelta rs re = 1 then PR.ok true
      else PR.ok false) = PR.ok true ↔ _
    split_ifs with hA hB hC
    · exact iff_of_true rfl (Or.inl hA)
    · exact iff_of_true rfl (Or.inr (Or.inl hB))
    · exact iff_of_true rfl (Or.inr (Or.inr hC))
    · refine iff_of_false (by simp) ?_
      rintro (h | h | h) <;> [exact hA h; exact hB h; exact hC h]
  · intro s e b1 b2
    rfl

/-- Witness for C7: a three-square vertical Emu slide is shape-legal. -/
theorem c7_emu_shape_iff_witness :
    Emu.valid_move (String.mk ['c', '1']) (String.mk ['c', '4']) [] = .ok true :=
  (c7_emu_shape_iff.1 [] 'c' (by decide) '1' (by decide) 'c' (by decide) '4'
    (by decide)).mpr (by decide)

theorem apply_move_board (g : Game) (s e : String) (p : Piece) :
    (apply_move g s e p).board = dictSet (dictSet g.board e (some p)) s none := rfl

theorem apply_move_state (g : Game) (s e : String) (p : Piece) :
    (apply_move g s e p).game_state = win_check g e := rfl

theorem apply_move_turn (g : Game) (s e : String) (p : Piece) :
    (apply_move g s e p).turn =
      (if g.turn = .TANGERINE then Color.AMETHYST else Color.TANGERINE) := rfl

theorem deltas_err_end_col {s e : String} {s0 e0 : Char} {i1 : Nat}
    (h0 : strIndex s 0 = .ok s0) (h1 : columnsIndex s0 = .ok i1)
    (h2 : strIndex e 0 = .ok e0) (h3 : columnsIndex e0 = .err .valueError) :
    deltas s e = .err .valueError := by
  unfold deltas
  split
  · rename_i heq; rw [h0] at heq; exact PR.noConfusion heq
  · rename_i heq; rw [h0] at heq; exact PR.noConfusion heq
  rename_i c0 heq0
  rw [h0] at heq0
  injection heq0 with heq0
  subst heq0
  split
  · rename_i heq; rw [h1] at heq; exact PR.noConfusion heq
  · rename_i heq; rw [h1] at heq; exact PR.noConfusion heq
  rename_i j1 heq1
  rw [h1] at heq1
  injection heq1 with heq1
  subst heq1
  split
  · rename_i heq; rw [h2] at heq; exact PR.noConfusion heq
  · rename_i heq; rw [h2] at heq; exact PR.noConfusion heq
  rename_i c2' heq2
  rw [h2] at heq2
  injection heq2 with heq2
  subst heq2
  split
  · rename_i er heq
    rw [h3] at heq
    injection heq with heq
    rw [← heq]
  · rename_i heq; exact absurd heq (columnsIndex_ne_div _)
  · rename_i j2 heq
    rw [h3] at heq
    exact PR.noConfusion heq

/-- Claim C2: for every game state and well-formed coordinates, `make_move`
returns a boolean (never an exception, never divergence), and a `False`
return leaves board, turn and status exactly as they were. -/
theorem c2_total_and_atomic (g : Game) (s e : String) (hs : WFsq s) (he : WFsq e) :
    (∃ b g', make_move g s e = .ok (b, g')) ∧
    (∀ g', make_move g s e = .ok (false, g') →
      g'.board = g.board ∧ g'.turn = g.turn ∧ g'.game_state = g.game_state) := by
  refine ⟨make_move_ok_of_wf g hs he, ?_⟩
  intro g' h
  rw [make_move_false_inv h]
  exact ⟨rfl, rfl, rfl⟩

/-- Witness for C2: the rejected move `a1 → b5` on a fresh game returns a
boolean. -/
theorem c2_total_and_atomic_witness :
    ∃ b g', make_move AnimalGame.new "a1" "b5" = .ok (b, g') :=
  (c2_total_and_atomic AnimalGame.new "a1" "b5" (by decide) (by decide)).1

/-- Claim C4: a successful non-capturing move puts exactly the moved piece on
the destination, empties the source, and flips the turn; rejected attempts
leave the turn unchanged. -/
theorem c4_noncapture_effects (g : Game) (s e : String) :
    (∀ p g', pyGet g.board s = some p → pyGet g.board e = none →
      make_move g s e = .ok (true, g') →
      pyGet g'.board e = some p ∧ pyGet g'.board s = none ∧
      g'.turn = otherColor g.turn) ∧
    (∀ g', make_move g s e = .ok (false, g') → g'.turn = g.turn) := by
  constructor
  · intro p g' hp he_empty htrue
    obtain ⟨h1, q, hq, hqc, ⟨dx, dy, hdel, hshape⟩, hfb, hg'⟩ := make_move_true_inv htrue
    rw [hp] at hq
    injection hq with hq
    subst hq
    have hne : s ≠ e := move_ne_of_shape hdel (shapeOf_ne_zero hshape)
    subst hg'
    refine ⟨?_, ?_, ?_⟩
    · rw [apply_move_board, pyGet_dictSet_ne _ _ _ _ (Ne.symm hne), pyGet_dictSet_self]
    · rw [apply_move_board, pyGet_dictSet_self]
    · rw [apply_move_turn]
      cases g.turn <;> rfl
  · intro g' h
    rw [make_move_false_inv h]

/-- The game produced by the Emu move `c1 → c2` on a fresh game. -/
def g4 : Game :=
  match make_move AnimalGame.new "c1" "c2" with
  | .ok (_, g') => g'
  | _ => AnimalGame.new

/-- Witness for C4: the opening Emu move `c1 → c2`. -/
theorem c4_noncapture_effects_witness :
    pyGet g4.board "c2" = some ⟨.TANGERINE, .emu⟩ ∧ pyGet g4.board "c1" = none ∧
    g4.turn = otherColor AnimalGame.new.turn :=
  (c4_noncapture_effects AnimalGame.new "c1" "c2").1 ⟨.TANGERINE, .emu⟩ g4
    (by decide) (by decide) (by decide)

/-- A two-piece position in which TANGERINE's Chinchilla on `a1` can capture
AMETHYST's Cuttlefish on `a2`. -/
def gW : Game :=
  { board := [("a1", some ⟨.TANGERINE, .chinchilla⟩),
              ("a2", some ⟨.AMETHYST, .cuttlefish⟩)],
    game_state := .UNFINISHED, turn := .TANGERINE }

/-- The game after that capture. -/
def g1W : Game :=
  match make_move gW "a1" "a2" with
  | .ok (_, g') => g'
  | _ => gW

/-- Claim C1: capturing the opponent's Cuttlefish sets the status to "won by
the moving side"; afterwards every sequence of further `make_move` calls
leaves the status unchanged and every call returns `False` with an
unchanged game. -/
theorem c1_royal_capture_terminal (g g' : Game) (s e : String) (q : Piece)
    (hcap : pyGet g.board e = some q) (hk : q.kind = .cuttlefish)
    (hmv : make_move g s e = .ok (true, g')) :
    g'.game_state = wonBy g.turn ∧
    ∀ (moves : List (String × String)) (s2 e2 : String),
      (runMoves g' moves).game_state = wonBy g.turn ∧
      make_move (runMoves g' moves) s2 e2 = .ok (false, runMoves g' moves) := by
  obtain ⟨h1, p, hp, hpc, hsh, hfb, hg'⟩ := make_move_true_inv hmv
  have hqc : q.color ≠ g.turn := friendly_block_false_elim hfb hcap
  have hstate : g'.game_state = wonBy g.turn := by
    subst hg'
    rw [apply_move_state]
    exact win_check_capture hcap hk hqc
  have hterm : g'.game_state ≠ .UNFINISHED := by
    rw [hstate]
    exact wonBy_ne_unfinished g.turn
  have hfrozen : ∀ moves, runMoves g' moves = g' := by
    intro moves
    induction moves with
    | nil => rfl
    | cons m rest ih =>
      obtain ⟨ms, me⟩ := m
      show runMoves g' ((ms, me) :: rest) = g'
      unfold runMoves
      rw [make_move_terminal ms me hterm]
      exact ih
  refine ⟨hstate, fun moves s2 e2 => ?_⟩
  rw [hfrozen moves]
  exact ⟨hstate, make_move_terminal s2 e2 hterm⟩

/-- Witness for C1: the concrete capture `a1 → a2` in `gW`, followed by an
arbitrary further attempt that fails. -/
theorem c1_royal_capture_terminal_witness :
    (runMoves g1W []).game_state = wonBy gW.turn ∧
    make_move (runMoves g1W []) "a2" "a3" = .ok (false, runMoves g1W []) :=
  (c1_royal_capture_terminal gW g1W "a1" "a2" ⟨.AMETHYST, .cuttlefish⟩
    (by decide) rfl (by decide)).2 [] "a2" "a3"

/-- Claim C10: a start key missing from the board makes `make_move` return
`False`; but a start square holding the mover's piece together with a
destination column letter outside `a`-`g` raises a `ValueError` from
`COLUMNS.index` inside the shape predicate. -/
theorem c10_malformed_asymmetry :
    (∀ (g : Game) (s e : String), pyGet g.board s = none →
      make_move g s e = .ok (false, g)) ∧
    (∀ (g : Game) (s e : String) (p : Piece) (c2 : Char),
      g.game_state = .UNFINISHED → WFsq s → pyGet g.board s = some p →
      p.color = g.turn → strIndex e 0 = .ok c2 → c2 ∉ COLUMNS →
      make_move g s e = .err .valueError) := by
  constructor
  · intro g s e h
    by_cases h1 : g.game_state = .UNFINISHED
    · exact make_move_nostart e h1 h
    · exact make_move_terminal s e h1
  · intro g s e p c2 h1 hs hp hc he0 hnc
    obtain ⟨cs, rs, hs0, hs1, hcs, hrs⟩ := WFsq_elim hs
    have herr : deltas s e = .err .valueError :=
      deltas_err_end_col hs0 (columnsIndex_of_mem hcs) he0
        (columnsIndex_err_of_not_mem hnc)
    have hvmerr : p.valid_move s e g.board = .err .valueError :=
      valid_move_err_of_deltas_err p g.board herr
    rw [make_move_eq_with_piece e h1 hp, with_piece_vm_err hc hvmerr]

/-- Witness for C10: `z9 → a1` returns `False`; `a1 → z1` raises
`ValueError`. -/
theorem c10_malformed_asymmetry_witness :
    make_move AnimalGame.new "z9" "a1" = .ok (false, AnimalGame.new) ∧
    make_move AnimalGame.new "a1" "z1" = .err .valueError :=
  ⟨c10_malformed_asymmetry.1 AnimalGame.new "z9" "a1" (by decide),
   c10_malformed_asymmetry.2 AnimalGame.new "a1" "z1" ⟨.TANGERINE, .chinchilla⟩
     'z' rfl (by decide) (by decide) rfl (by decide) (by decide)⟩

theorem stepOf_eq_zero {d : Int} (h : stepOf d = 0) : d = 0 := by
  unfold stepOf at h
  split_ifs at h with h1 h2 <;> omega

/-- Claim C8: the `_path_clear` loop terminates for every call reachable
through `make_move` (the embedding's fuel of 49 is never exhausted, so
`make_move` never returns the divergence marker); and for a non-straight
delta such as dCol = 2, dRow = 1 (here: start `a1`, end `c2`, so the loop
runs with end coordinates (2, 2), unit steps (1, 1) and entry square
(1, 2) on an empty board) the walk never reaches the end coordinates, so
the loop never exits with `True`, whatever the fuel. -/
theorem c8_path_loop_terminates :
    (∀ (g : Game) (s e : String), make_move g s e ≠ .div) ∧
    (∀ fuel : Nat, pathClearLoop [] 2 2 1 1 1 2 fuel ≠ .ok true) := by
  constructor
  · exact make_move_ne_div
  · intro fuel
    rcases fuel with _ | _ | _ | _ | _ | _ | _ | n
    · decide
    · decide
    · decide
    · decide
    · decide
    · decide
    · decide
    · intro h
      rw [show pathClearLoop [] 2 2 1 1 1 2 (n + 7) = .err .indexError from rfl] at h
      exact PR.noConfusion h

/-- Witness for C8: the first conjunct applied to the opening position and
a concrete move. -/
theorem c8_path_loop_terminates_witness :
    make_move AnimalGame.new "c1" "c3" ≠ .div :=
  c8_path_loop_terminates.1 AnimalGame.new "c1" "c3"

/-- Claim C3: a sliding piece (Emu or Chinchilla) whose straight line to the
destination has an occupied square strictly between the endpoints (unit-step
deltas, endpoints excluded) can never complete the move; a jump piece
(Wombat or Cuttlefish) succeeds whenever the endpoint conditions alone pass,
so intermediate occupancy is never examined — even on the Wombat's 4-square
jump. -/
theorem c3_sliding_blocked_jump_free :
    (∀ (g : Game) (cs rs ce re : Char) (p : Piece),
      cs ∈ COLUMNS → rs ∈ DIGITS10 → ce ∈ COLUMNS → re ∈ DIGITS10 →
      pyGet g.board (String.mk [cs, rs]) = some p →
      (p.kind = .emu ∨ p.kind = .chinchilla) →
      (∃ j : Nat, 1 ≤ j ∧ j < max (colDelta cs ce) (rowDelta rs re) ∧
        (pyGet g.board (squareAt
          ((colIdx cs : Int) + j * stepOf ((colIdx ce : Int) - (colIdx cs : Int)))
          (rowVal rs + j * stepOf (rowVal re - rowVal rs)))).isSome = true) →
      isTrueMove (make_move g (String.mk [cs, rs]) (String.mk [ce, re])) = false) ∧
    (∀ (g : Game) (s e : String) (p : Piece),
      g.game_state = .UNFINISHED → pyGet g.board s = some p →
      p.color = g.turn → (p.kind = .wombat ∨ p.kind = .cuttlefish) →
      p.valid_move s e g.board = .ok true →
      ¬(friendly_block g e = true) →
      isTrueMove (make_move g s e) = true) := by
  constructor
  · intro g cs rs ce re p hcs hrs hce hre hp hkind hblk
    by_cases h1 : g.game_state = .UNFINISHED
    case neg => rw [make_move_terminal _ _ h1]; rfl
    rw [make_move_eq_with_piece _ h1 hp]
    by_cases h3 : p.color = g.turn
    case neg => rw [with_piece_wrongcolor _ _ h3]; rfl
    rcases h4 : p.valid_move (String.mk [cs, rs]) (String.mk [ce, re]) g.board
      with v | er | -
    rotate_left
    · rw [with_piece_vm_err h3 h4]; rfl
    · exact absurd h4 (valid_move_ne_div p _ _ g.board)
    rw [with_piece_eq_after_valid h3 h4]
    cases v
    · rw [after_valid_false]; rfl
    by_cases h5 : friendly_block g (String.mk [ce, re]) = true
    case pos => rw [after_valid_friendly _ p h5]; rfl
    have hdel := deltas_eq_of_components
      (strIndex_mk2 cs rs 0).1 (columnsIndex_of_mem hcs)
      (strIndex_mk2 ce re 0).1 (columnsIndex_of_mem hce)
      (strIndex_mk2 cs rs 0).2 (pyIntChar_of_mem hrs)
      (strIndex_mk2 ce re 0).2 (pyIntChar_of_mem hre)
    obtain ⟨dx, dy, hdel', hshape⟩ := valid_move_true_elim h4
    rw [hdel] at hdel'
    injection hdel' with hdel'
    injection hdel' with hdx hdy
    subst hdx
    subst hdy
    have hstraight := sliding_shape_straight hkind hshape
    have hi1 : colIdx cs ≤ 6 := columnsIndex_ok_le (columnsIndex_of_mem hcs)
    have hi2 : colIdx ce ≤ 6 := columnsIndex_ok_le (columnsIndex_of_mem hce)
    obtain ⟨K, hK49, hcK, hrK, hb0, hb6, hKmax⟩ :=
      shape_reach hi1 hi2 hstraight.1 hstraight.2
    obtain ⟨j, hj1, hjmax, hjocc⟩ := hblk
    have hσne : ¬(stepOf ((colIdx ce : Int) - (colIdx cs : Int)) = 0 ∧
        stepOf (rowVal re - rowVal rs) = 0) := by
      rintro ⟨hc0, hr0⟩
      have e1 := stepOf_eq_zero hc0
      have e2 := stepOf_eq_zero hr0
      refine shapeOf_ne_zero hshape ⟨?_, ?_⟩ <;> omega
    simp only [colDelta, rowDelta] at hjmax
    have hjK : j - 1 < K := by omega
    have key : ∀ (a σ : Int), σ = -1 ∨ σ = 0 ∨ σ = 1 →
        (a + σ) + ((j - 1 : Nat) : Int) * σ = a + (j : Nat) * σ := by
      intro a σ hσ
      rcases hσ with rfl | rfl | rfl <;> omega
    have hjocc' : (pyGet g.board (squareAt
        (((colIdx cs : Int) + stepOf ((colIdx ce : Int) - (colIdx cs : Int))) +
          ((j - 1 : Nat) : Int) * stepOf ((colIdx ce : Int) - (colIdx cs : Int)))
        ((rowVal rs + stepOf (rowVal re - rowVal rs)) +
          ((j - 1 : Nat) : Int) * stepOf (rowVal re - rowVal rs)))).isSome = true := by
      rw [key _ _ (stepOf_cases ((colIdx ce : Int) - (colIdx cs : Int))),
        key _ _ (stepOf_cases (rowVal re - rowVal rs))]
      exact hjocc
    have hblocked := pathClearLoop_blocked g.board (rowVal re)
      (stepOf_cases ((colIdx ce : Int) - (colIdx cs : Int))) hσne
      (by positivity) (by exact_mod_cast hi2) K _ _ 49 hcK hrK hK49 hb0 hb6
      ⟨j - 1, hjK, hjocc'⟩
    have hpc := @path_clear_eq g.board (String.mk [cs, rs]) (String.mk [ce, re])
      cs ce rs re (colIdx cs) (colIdx ce) (rowVal rs) (rowVal re)
      (strIndex_mk2 cs rs 0).1 (columnsIndex_of_mem hcs)
      (strIndex_mk2 cs rs 0).2 (pyIntChar_of_mem hrs)
      (strIndex_mk2 ce re 0).1 (columnsIndex_of_mem hce)
      (strIndex_mk2 ce re 0).2 (pyIntChar_of_mem hre)
    rw [after_valid_slide h5 hkind (hpc.trans hblocked)]
    rfl
  · intro g s e p h1 hp hc hkind hvm hfb
    have h6 : ¬(p.kind = .emu ∨ p.kind = .chinchilla) := by
      rcases hkind with hk | hk <;> rw [hk] <;> decide
    rw [make_move_eq_with_piece e h1 hp, with_piece_eq_after_valid hc hvm,
      after_valid_jump s e hfb h6]
    rfl

/-- A blocked Emu slide: TANGERINE Emu on `a1`, own Chinchilla on `a2`. -/
def gBlk : Game :=
  { board := [("a1", some ⟨.TANGERINE, .emu⟩),
              ("a2", some ⟨.TANGERINE, .chinchilla⟩)],
    game_state := .UNFINISHED, turn := .TANGERINE }

/-- A Wombat jump over three occupied squares. -/
def gJmp : Game :=
  { board := [("a1", some ⟨.TANGERINE, .wombat⟩),
              ("a2", some ⟨.TANGERINE, .chinchilla⟩),
              ("a3", some ⟨.TANGERINE, .chinchilla⟩),
              ("a4", some ⟨.TANGERINE, .chinchilla⟩)],
    game_state := .UNFINISHED, turn := .TANGERINE }

/-- Witness for C3: the blocked Emu slide `a1 → a3` fails, while the Wombat
4-jump `a1 → a5` over occupied squares succeeds. -/
theorem c3_sliding_blocked_jump_free_witness :
    isTrueMove (make_move gBlk (String.mk ['a', '1']) (String.mk ['a', '3'])) = false ∧
    isTrueMove (make_move gJmp "a1" "a5") = true :=
  ⟨c3_sliding_blocked_jump_free.1 gBlk 'a' '1' 'a' '3' ⟨.TANGERINE, .emu⟩
      (by decide) (by decide) (by decide) (by decide) (by decide) (Or.inl rfl)
      ⟨1, by decide, by decide, by decide⟩,
   c3_sliding_blocked_jump_free.2 gJmp "a1" "a5" ⟨.TANGERINE, .wombat⟩
      rfl (by decide) rfl (Or.inl rfl) (by decide) (by decide)⟩

/-! ### Cuttlefish counting across a successful move -/

theorem capture_count_lemma {g g' : Game} {s e : String} {c : Color}
    (h : make_move g s e = .ok (true, g'))
    (hlt : cuttleCount g'.board c < cuttleCount g.board c) :
    g'.game_state ≠ .UNFINISHED := by
  obtain ⟨h1, p, hp, hpc, ⟨dx, dy, hdel, hshape⟩, hfb, hg'⟩ := make_move_true_inv h
  have hne : s ≠ e := move_ne_of_shape hdel (shapeOf_ne_zero hshape)
  subst hg'
  have e1 := cuttleCount_dictSet g.board e (some p) c
  have e2 := cuttleCount_dictSet (dictSet g.board e (some p)) s none c
  rw [pyGet_dictSet_ne _ _ _ _ hne, hp] at e2
  rw [apply_move_board] at hlt
  have hcontrib : 1 ≤ contrib c (pyGet g.board e) := by
    simp only [contrib] at e1 e2 ⊢
    omega
  rcases hq : pyGet g.board e with _ | q
  · rw [hq] at hcontrib
    simp [contrib] at hcontrib
  rw [hq] at hcontrib
  have hqk : q.kind = .cuttlefish := by
    by_contra hcon
    rw [show contrib c (some q) =
      (if q.kind = PieceKind.cuttlefish ∧ q.color = c then 1 else 0) from rfl,
      if_neg (fun hand => hcon hand.1)] at hcontrib
    omega
  rw [apply_move_state,
    win_check_capture hq hqk (friendly_block_false_elim hfb hq)]
  exact wonBy_ne_unfinished g.turn

theorem count_preserved {g g' : Game} {s e : String} (c : Color)
    (h : make_move g s e = .ok (true, g')) (hUF : g'.game_state = .UNFINISHED) :
    cuttleCount g'.board c = cuttleCount g.board c := by
  obtain ⟨h1, p, hp, hpc, ⟨dx, dy, hdel, hshape⟩, hfb, hg'⟩ := make_move_true_inv h
  have hne : s ≠ e := move_ne_of_shape hdel (shapeOf_ne_zero hshape)
  subst hg'
  rw [apply_move_state] at hUF
  have htarget : contrib c (pyGet g.board e) = 0 := by
    rcases hq : pyGet g.board e with _ | q
    · rfl
    · have hqk : q.kind ≠ .cuttlefish := by
        intro hk
        rw [win_check_capture hq hk (friendly_block_false_elim hfb hq)] at hUF
        exact wonBy_ne_unfinished g.turn hUF
      rw [show contrib c (some q) =
        (if q.kind = PieceKind.cuttlefish ∧ q.color = c then 1 else 0) from rfl,
        if_neg (fun hand => hqk hand.1)]
  have e1 := cuttleCount_dictSet g.board e (some p) c
  have e2 := cuttleCount_dictSet (dictSet g.board e (some p)) s none c
  rw [pyGet_dictSet_ne _ _ _ _ hne, hp] at e2
  rw [apply_move_board]
  rw [htarget] at e1
  simp only [contrib] at e1 e2
  omega

/-- Claim C6: in every state reachable by well-formed `make_move` calls, the
board's keys are duplicate-free (each square holds at most one piece);
while the status is `UNFINISHED` each side has exactly one Cuttlefish on
the board; and any successful move that decreases a side's Cuttlefish count
leaves a non-`UNFINISHED` (terminal) status in the same step. -/
theorem c6_board_invariants (g : Game) (h : Reachable g) :
    (g.board.map Prod.fst).Nodup ∧
    (g.game_state = .UNFINISHED →
      cuttleCount g.board .TANGERINE = 1 ∧ cuttleCount g.board .AMETHYST = 1) ∧
    (∀ (s e : String) (g' : Game) (c : Color), make_move g s e = .ok (true, g') →
      cuttleCount g'.board c < cuttleCount g.board c →
      g'.game_state ≠ .UNFINISHED) := by
  induction h with
  | init =>
    refine ⟨by decide, fun _ => by constructor <;> decide,
      fun s e g' c hm hlt => capture_count_lemma hm hlt⟩
  | @step g0 s0 e0 b0 g0' hre hws hwe hmv ih =>
    cases b0
    case false =>
      rw [make_move_false_inv hmv]
      exact ih
    case true =>
      refine ⟨?_, ?_, fun s e g' c hm hlt => capture_count_lemma hm hlt⟩
      · obtain ⟨h1, p, hp, hpc, hsh, hfb, hg'⟩ := make_move_true_inv hmv
        subst hg'
        rw [apply_move_board]
        exact nodup_keys_dictSet _ _ _ (nodup_keys_dictSet _ _ _ ih.1)
      · intro hUF
        have h1UF : g0.game_state = .UNFINISHED := (make_move_true_inv hmv).1
        have hcounts := ih.2.1 h1UF
        exact ⟨by rw [count_preserved _ hmv hUF]; exact hcounts.1,
               by rw [count_preserved _ hmv hUF]; exact hcounts.2⟩

/-- Witness for C6: the invariants instantiated at the initial position. -/
theorem c6_board_invariants_witness :
    cuttleCount AnimalGame.new.board .TANGERINE = 1 :=
  ((c6_board_invariants AnimalGame.new Reachable.init).2.1 rfl).1
